import Mathlib

/-!
Verification of the animation mixing engine of the HappyChair repository
(`Servo/Animation.py`), shallowly embedded in Lean 4.

Weights are modelled as exact rationals (the Python floats), the layer
collection (`AnimationPlayer.stack`) as a list, and each stateful object as a
structure with explicit state passing.  Callback invocations (`on_complete`,
`on_start_blend_out`) are modelled as event flags returned by the step
functions.
-/

/-- Clamping used throughout `AnimationPlayer.set_layer_weight`:
`max(min(weight, 1.0), 0.0)`. -/
def clamp01 (x : ℚ) : ℚ := max (min x 1) 0

/-- Write-back phase of `set_layer_weight` (lines 257-260 of `Animation.py`):
position `idx` receives `clamp01 w`, every other position `i` receives
`clamp01 (f ws[i])`, where `f` is the redistribution chosen for the other
layers.  Mirrors `for anim, norm_weight in zip(self.stack, weights):
anim.weight = max(min(norm_weight, 1.0), 0.0)`. -/
def applyWeights : List ℚ → ℕ → ℚ → (ℚ → ℚ) → List ℚ
  | [], _, _, _ => []
  | _ :: xs, 0, w, f => clamp01 w :: xs.map (fun y => clamp01 (f y))
  | x :: xs, n + 1, w, f => clamp01 (f x) :: applyWeights xs n w f

/-- Embedding of `AnimationPlayer.set_layer_weight(layer, weight)`
(`Animation.py` lines 222-260), acting on the vector of layer weights.
`idx` is the position of `layer` in `self.stack`; an index outside the list
models the `ValueError` from `self.stack.index(layer)`, upon which the method
returns with no changes.  The target weight is clamped to `[0,1]`; if
`remaining = 1 - weight` is positive and other layers exist, the others are
scaled by `remaining / other_sum` when their current sum is positive and
otherwise receive `remaining / len(others)` each; in all remaining cases the
other layers are zeroed.  Every written weight is clamped to `[0,1]`. -/
def redistributionFn (remaining otherSum : ℚ) (othersCount : ℕ) : ℚ → ℚ :=
  if 0 < remaining ∧ 0 < othersCount then
    if 0 < otherSum then fun y => y * (remaining / otherSum)
    else fun _ => remaining / (othersCount : ℚ)
  else fun _ => 0

def setLayerWeight (ws : List ℚ) (idx : ℕ) (weight : ℚ) : List ℚ :=
  if idx < ws.length then
    applyWeights ws idx (clamp01 weight)
      (redistributionFn (1 - clamp01 weight) (ws.sum - ws.getD idx 0) (ws.length - 1))
  else ws

/-- Modelled from the spec's description of the redistribution step (claim
wording): clamp the target; if the other layers' weights sum to more than 0,
scale each other layer by `(1 - w) / sum(others)`; else if at least one other
layer exists, distribute `1 - w` equally among the others; finally write the
clamped target and clamp every resulting weight.  Used only to compare with
`setLayerWeight`, the embedding of the source. -/
def redistributionFnSpec (remaining otherSum : ℚ) (othersCount : ℕ) : ℚ → ℚ :=
  if 0 < otherSum then fun y => y * (remaining / otherSum)
  else if 0 < othersCount then fun _ => remaining / (othersCount : ℚ)
  else id

def setLayerWeightSpec (ws : List ℚ) (idx : ℕ) (weight : ℚ) : List ℚ :=
  if idx < ws.length then
    applyWeights ws idx (clamp01 weight)
      (redistributionFnSpec (1 - clamp01 weight) (ws.sum - ws.getD idx 0) (ws.length - 1))
  else ws

/-- A sequence of `set_layer_weight` calls, each given as (index, weight). -/
def applyCalls : List ℚ → List (ℕ × ℚ) → List ℚ
  | ws, [] => ws
  | ws, c :: cs => applyCalls (setLayerWeight ws c.1 c.2) cs

/-- Embedding of `AnimationLayer` (`Animation.py` lines 380-500).  `hasClip`
models `self.current_animation` being non-None; `frames` is the clip's
`frames()`; `blend_out_frame_duration` mirrors the float field of that name;
`post_delay_count` is `_current_post_delay_frame_count`; `blending_out` is
`_blending_out`; `is_playing` is `_is_playing`. -/
structure AnimationLayer where
  looping : Bool
  hasClip : Bool
  frames : ℕ
  current_frame : ℤ
  weight : ℚ
  is_playing : Bool
  post_delay_frames : ℕ
  post_delay_count : ℕ
  blend_out_frame_duration : ℚ
  blending_out : Bool
  transient : Bool
deriving DecidableEq

/-- Result of one `AnimationLayer.update` call: the updated layer plus flags
recording whether the `on_complete` / `on_start_blend_out` callback invocation
points were reached during that call. -/
structure UpdateResult where
  layer : AnimationLayer
  fired_complete : Bool
  fired_blend_out : Bool
deriving DecidableEq

/-- Embedding of `AnimationLayer.update(delta, framerate)` (`Animation.py`
lines 458-497).  Not playing: no-op.  Otherwise `next = current_frame +
floor(delta * framerate)`; with a clip, if `next < frames` the frame advances
and the blend-out edge (`current_frame >= frames - blend_out_frame_duration`,
non-looping, not already blending out) fires `on_start_blend_out`; else the
post-delay counter is incremented and, once it reaches `post_delay_frames`,
it is reset, `on_complete` fires, and the layer either restarts at frame 0
(looping) or stops, with `blending_out` cleared. -/
def AnimationLayer.update (l : AnimationLayer) (delta framerate : ℚ) : UpdateResult :=
  if l.is_playing = false then ⟨l, false, false⟩
  else
    if l.hasClip = false then ⟨l, false, false⟩
    else if l.current_frame + ⌊delta * framerate⌋ < (l.frames : ℤ) then
      if (l.frames : ℚ) - l.blend_out_frame_duration ≤
            ((l.current_frame + ⌊delta * framerate⌋ : ℤ) : ℚ) ∧
          l.looping = false ∧ l.blending_out = false then
        ⟨{ l with current_frame := l.current_frame + ⌊delta * framerate⌋, blending_out := true }, false, true⟩
      else
        ⟨{ l with current_frame := l.current_frame + ⌊delta * framerate⌋ }, false, false⟩
    else
      if l.post_delay_frames ≤ l.post_delay_count + 1 then
        if l.looping then
          ⟨{ l with post_delay_count := 0, current_frame := 0, blending_out := false }, true, false⟩
        else
          ⟨{ l with post_delay_count := 0, is_playing := false, blending_out := false }, true, false⟩
      else ⟨{ l with post_delay_count := l.post_delay_count + 1 }, false, false⟩

/-- Embedding of `AnimationLayer.play(loop=None, from_frame=0)` (`Animation.py`
lines 400-405): sets the frame cursor and the playing flag; `looping` changes
only when `loop` is provided. -/
def AnimationLayer.play (l : AnimationLayer) (loop : Option Bool)
    (from_frame : ℤ) : AnimationLayer :=
  { l with current_frame := from_frame, is_playing := true,
           looping := loop.getD l.looping }

/-- Embedding of the `AnimationLayer.is_completed` property (`Animation.py`
lines 429-451): false without a clip, else not playing, last frame reached
(`current_frame + 1 >= frames`), and post-delay expired. -/
def AnimationLayer.is_completed (l : AnimationLayer) : Bool :=
  if l.hasClip = false then false
  else
    !l.is_playing && decide ((l.frames : ℤ) ≤ l.current_frame + 1) &&
      decide (l.post_delay_frames ≤ l.post_delay_count)

/-- A run of `update` ticks over one layer: returns the final layer together
with the number of `on_complete` and of `on_start_blend_out` invocations. -/
def runUpdates (framerate : ℚ) : AnimationLayer → List ℚ → AnimationLayer × ℕ × ℕ
  | l, [] => (l, 0, 0)
  | l, d :: ds =>
    let r := l.update d framerate
    let rest := runUpdates framerate r.layer ds
    (rest.1, (if r.fired_complete then 1 else 0) + rest.2.1,
      (if r.fired_blend_out then 1 else 0) + rest.2.2)

/-- Step 1 of one tick of `AnimationPlayer.update` (`Animation.py` lines
293-300): every layer of a snapshot of the stack is advanced, and each layer
that is `transient` and `is_completed` after its own advance is removed from
the stack during the same tick. -/
def mixerTick (layers : List AnimationLayer) (delta framerate : ℚ) :
    List AnimationLayer :=
  (layers.map (fun l => (l.update delta framerate).layer)).filter
    (fun l => !(l.transient && l.is_completed))

/-- Projection of the `AnimationPlayer` state used by the weight-management
and crossfade protocol: the stack's weight vector plus the interpolation
fields set in `__init__` (lines 71-78) and driven by `animate_layer_weight`
and the tick loop. -/
structure PlayerWeightState where
  weights : List ℚ
  interpolating : Bool
  interpolation_layer : ℕ
  interpolation_start_weight : ℚ
  interpolation_end_weight : ℚ
  interpolation_start_time : ℚ
  interpolation_end_time : ℚ
deriving DecidableEq

/-- Embedding of the module-level `map_range` helper (`Animation.py` line 14). -/
def map_range (value start1 stop1 start2 stop2 : ℚ) : ℚ :=
  (value - start1) / (stop1 - start1) * (stop2 - start2) + start2

/-- Embedding of `AnimationPlayer.animate_layer_weight(layer, weight,
duration)` (`Animation.py` lines 210-220): records the interpolation state
(start weight, target weight, start time `now`, end time `now + duration`)
and touches no layer weight.  `idx` is the position of `layer` in the stack. -/
def animateLayerWeight (s : PlayerWeightState) (idx : ℕ)
    (weight duration now : ℚ) : PlayerWeightState :=
  { s with interpolating := true,
           interpolation_start_time := now,
           interpolation_end_time := now + duration,
           interpolation_start_weight := s.weights.getD idx 0,
           interpolation_end_weight := weight,
           interpolation_layer := idx }

/-- The weight-interpolation portion of one tick of `AnimationPlayer.update`
(`Animation.py` lines 279-291): when interpolating, if the current time has
reached the end time the target weight is applied via `set_layer_weight` and
interpolation stops; otherwise the lerped weight is applied. -/
def interpolationTick (s : PlayerWeightState) (now : ℚ) : PlayerWeightState :=
  if s.interpolating = false then s
  else if s.interpolation_end_time ≤ now then
    { s with
      weights := setLayerWeight s.weights s.interpolation_layer
        s.interpolation_end_weight,
      interpolating := false }
  else
    { s with
      weights := setLayerWeight s.weights s.interpolation_layer
        (map_range ((now - s.interpolation_start_time) /
            (s.interpolation_end_time - s.interpolation_start_time)) 0 1
          s.interpolation_start_weight s.interpolation_end_weight) }

/-- Exit decision of one iteration of the `AnimationPlayer.update` loop
(`Animation.py` lines 262-324): an iteration that finds the stack empty
sleeps and `continue`s before ever reaching the `if self.stopped: break`
check, so it never exits; an iteration over a non-empty stack runs the tick
body and then exits exactly when the `stopped` flag is set. -/
def loopIterationExits (stack : List AnimationLayer) (stopped : Bool) : Bool :=
  if stack.length = 0 then false else stopped

/-- A non-looping, zero-post-delay layer over a 4-frame clip, playing from
frame 0 (the round-trip scenario of the spec). -/
def L4 : AnimationLayer :=
  { looping := false, hasClip := true, frames := 4, current_frame := 0,
    weight := 1, is_playing := true, post_delay_frames := 0,
    post_delay_count := 0, blend_out_frame_duration := 0,
    blending_out := false, transient := false }

/-- `L4` with its playback cursor at frame `k`. -/
def L4at (k : ℤ) : AnimationLayer := { L4 with current_frame := k }

/-- `L4` after completing: cursor on the last frame, stopped. -/
def L4done : AnimationLayer := { L4 with current_frame := 3, is_playing := false }

/-- A non-looping layer over a 120-frame clip with a 30-frame blend-out
threshold, playing from frame 0 (the blend-out edge scenario of the spec). -/
def L120 : AnimationLayer :=
  { looping := false, hasClip := true, frames := 120, current_frame := 0,
    weight := 1, is_playing := true, post_delay_frames := 0,
    post_delay_count := 0, blend_out_frame_duration := 30,
    blending_out := false, transient := false }

/-- `L120` after a tick that jumps past the end of the clip: stopped, cursor
still at frame 0. -/
def L120stop : AnimationLayer := { L120 with is_playing := false }

/-- `L4` after a tick that jumps past the end of the clip: stopped, cursor
still at frame 0. -/
def L4stop : AnimationLayer := { L4 with is_playing := false }

/-- A player state holding two layers with weights A = 1 and B = 0 and no
interpolation in flight. -/
def S0 : PlayerWeightState :=
  { weights := [1, 0], interpolating := false, interpolation_layer := 0,
    interpolation_start_weight := 0, interpolation_end_weight := 1,
    interpolation_start_time := 0, interpolation_end_time := 0 }

/-- `L4` with `blending_out` set and a non-zero post-delay counter, as left
behind by an interrupted blend-out. -/
def Lblend : AnimationLayer :=
  { L4 with blending_out := true, post_delay_count := 5, is_playing := false }

-- Basic facts about `clamp01`.

theorem clamp01_nonneg (x : ℚ) : 0 ≤ clamp01 x := le_max_right _ _

theorem clamp01_le_one (x : ℚ) : clamp01 x ≤ 1 :=
  max_le (min_le_right x 1) zero_le_one

theorem clamp01_of_mem (x : ℚ) (h0 : 0 ≤ x) (h1 : x ≤ 1) : clamp01 x = x := by
  unfold clamp01
  rw [min_eq_left h1, max_eq_left h0]

theorem clamp01_zero : clamp01 0 = 0 := clamp01_of_mem 0 le_rfl (by norm_num)

-- Structural facts about `applyWeights`.

theorem applyWeights_length (ws : List ℚ) (idx : ℕ) (w : ℚ) (f : ℚ → ℚ) :
    (applyWeights ws idx w f).length = ws.length := by
  induction ws generalizing idx with
  | nil => rfl
  | cons x xs ih =>
    cases idx with
    | zero => simp [applyWeights]
    | succ n => simp [applyWeights, ih]

theorem applyWeights_mem (ws : List ℚ) (idx : ℕ) (w : ℚ) (f : ℚ → ℚ) :
    ∀ x ∈ applyWeights ws idx w f, 0 ≤ x ∧ x ≤ 1 := by
  induction ws generalizing idx with
  | nil => intro x hx; simp [applyWeights] at hx
  | cons y ys ih =>
    cases idx with
    | zero =>
      intro x hx
      simp only [applyWeights, List.mem_cons, List.mem_map] at hx
      rcases hx with rfl | ⟨z, _, rfl⟩
      · exact ⟨clamp01_nonneg _, clamp01_le_one _⟩
      · exact ⟨clamp01_nonneg _, clamp01_le_one _⟩
    | succ n =>
      intro x hx
      simp only [applyWeights, List.mem_cons] at hx
      rcases hx with rfl | hx
      · exact ⟨clamp01_nonneg _, clamp01_le_one _⟩
      · exact ih n x hx

theorem applyWeights_congr (ws : List ℚ) (idx : ℕ) (w : ℚ) (f g : ℚ → ℚ)
    (h : ∀ y ∈ ws.eraseIdx idx, f y = g y) :
    applyWeights ws idx w f = applyWeights ws idx w g := by
  induction ws generalizing idx with
  | nil => rfl
  | cons x xs ih =>
    cases idx with
    | zero =>
      simp only [List.eraseIdx] at h
      simp only [applyWeights]
      congr 1
      exact List.map_congr_left (fun y hy => by rw [h y hy])
    | succ n =>
      simp only [List.eraseIdx] at h
      simp only [applyWeights]
      congr 1
      · rw [h x (List.mem_cons_self _ _)]
      · exact ih n (fun y hy => h y (List.mem_cons_of_mem _ hy))

theorem applyWeights_sum (ws : List ℚ) (idx : ℕ) (w : ℚ) (f : ℚ → ℚ)
    (h : idx < ws.length) :
    (applyWeights ws idx w f).sum =
      clamp01 w + ((ws.eraseIdx idx).map (fun y => clamp01 (f y))).sum := by
  induction ws generalizing idx with
  | nil => simp at h
  | cons x xs ih =>
    cases idx with
    | zero => simp [applyWeights, List.eraseIdx]
    | succ n =>
      simp only [applyWeights, List.eraseIdx, List.sum_cons, List.map_cons]
      rw [ih n (by simpa using h)]
      ring

-- Facts about `eraseIdx`.

theorem eraseIdx_sum (ws : List ℚ) (idx : ℕ) (h : idx < ws.length) :
    (ws.eraseIdx idx).sum = ws.sum - ws.getD idx 0 := by
  induction ws generalizing idx with
  | nil => simp at h
  | cons x xs ih =>
    cases idx with
    | zero => simp [List.eraseIdx]
    | succ n =>
      simp only [List.eraseIdx, List.sum_cons, List.getD_cons_succ]
      rw [ih n (by simpa using h)]
      ring

theorem eraseIdx_length (ws : List ℚ) (idx : ℕ) (h : idx < ws.length) :
    (ws.eraseIdx idx).length = ws.length - 1 := by
  induction ws generalizing idx with
  | nil => simp at h
  | cons x xs ih =>
    cases idx with
    | zero => simp [List.eraseIdx]
    | succ n =>
      have hn : n < xs.length := by simpa using h
      simp only [List.eraseIdx, List.length_cons]
      rw [ih n hn]
      omega

theorem eraseIdx_mem (ws : List ℚ) (idx : ℕ) :
    ∀ x ∈ ws.eraseIdx idx, x ∈ ws := by
  intro x hx
  exact (List.eraseIdx_sublist ws idx).subset hx

theorem sum_map_mul_right (l : List ℚ) (c : ℚ) :
    (l.map (fun y => y * c)).sum = l.sum * c := by
  induction l with
  | nil => simp
  | cons x xs ih => simp [ih]; ring

theorem sum_map_const (l : List ℚ) (c : ℚ) :
    (l.map (fun _ => c)).sum = (l.length : ℚ) * c := by
  induction l with
  | nil => simp
  | cons x xs ih => simp [ih]; ring

-- Core facts about `setLayerWeight`.

theorem setLayerWeight_length (ws : List ℚ) (idx : ℕ) (weight : ℚ) :
    (setLayerWeight ws idx weight).length = ws.length := by
  unfold setLayerWeight
  split
  · exact applyWeights_length _ _ _ _
  · rfl

theorem setLayerWeight_mem (ws : List ℚ) (idx : ℕ) (weight : ℚ)
    (hb : ∀ x ∈ ws, 0 ≤ x ∧ x ≤ 1) :
    ∀ x ∈ setLayerWeight ws idx weight, 0 ≤ x ∧ x ≤ 1 := by
  unfold setLayerWeight
  split
  · exact applyWeights_mem _ _ _ _
  · exact hb

theorem setLayerWeight_not_found (ws : List ℚ) (idx : ℕ) (weight : ℚ)
    (h : ws.length ≤ idx) : setLayerWeight ws idx weight = ws := by
  unfold setLayerWeight
  rw [if_neg (by omega)]

theorem setLayerWeight_sum (ws : List ℚ) (idx : ℕ) (weight : ℚ)
    (h2 : 2 ≤ ws.length) (hb : ∀ x ∈ ws, 0 ≤ x ∧ x ≤ 1)
    (hidx : idx < ws.length) :
    (setLayerWeight ws idx weight).sum = 1 := by
  unfold setLayerWeight
  rw [if_pos hidx, applyWeights_sum _ _ _ _ hidx]
  have hw0 : 0 ≤ clamp01 weight := clamp01_nonneg _
  have hw1 : clamp01 weight ≤ 1 := clamp01_le_one _
  have hwc : clamp01 (clamp01 weight) = clamp01 weight := clamp01_of_mem _ hw0 hw1
  have hrem0 : 0 ≤ 1 - clamp01 weight := by linarith
  have hOthers : ∀ y ∈ ws.eraseIdx idx, 0 ≤ y ∧ y ≤ 1 :=
    fun y hy => hb y (eraseIdx_mem ws idx y hy)
  have hOSsum : (ws.eraseIdx idx).sum = ws.sum - ws.getD idx 0 :=
    eraseIdx_sum ws idx hidx
  have hOS0 : 0 ≤ ws.sum - ws.getD idx 0 := by
    rw [← hOSsum]
    exact List.sum_nonneg (fun y hy => (hOthers y hy).1)
  have hOClen : (ws.eraseIdx idx).length = ws.length - 1 := eraseIdx_length ws idx hidx
  have hOC1 : 1 ≤ ws.length - 1 := by omega
  unfold redistributionFn
  by_cases h1 : 0 < 1 - clamp01 weight ∧ 0 < ws.length - 1
  · rw [if_pos h1]
    by_cases hS : 0 < ws.sum - ws.getD idx 0
    · rw [if_pos hS]
      have hpt : ∀ y ∈ ws.eraseIdx idx,
          clamp01 (y * ((1 - clamp01 weight) / (ws.sum - ws.getD idx 0))) =
            y * ((1 - clamp01 weight) / (ws.sum - ws.getD idx 0)) := by
        intro y hy
        obtain ⟨hy0, _⟩ := hOthers y hy
        have hyS : y ≤ ws.sum - ws.getD idx 0 := by
          rw [← hOSsum]
          exact List.single_le_sum (fun z hz => (hOthers z hz).1) y hy
        apply clamp01_of_mem
        · positivity
        · calc y * ((1 - clamp01 weight) / (ws.sum - ws.getD idx 0))
              ≤ (ws.sum - ws.getD idx 0) * ((1 - clamp01 weight) / (ws.sum - ws.getD idx 0)) := by
                apply mul_le_mul_of_nonneg_right hyS
                positivity
            _ = 1 - clamp01 weight := by
                rw [mul_comm]
                exact div_mul_cancel₀ _ (ne_of_gt hS)
            _ ≤ 1 := by linarith
      rw [List.map_congr_left hpt, sum_map_mul_right, hOSsum, hwc]
      have key : (ws.sum - ws.getD idx 0) * ((1 - clamp01 weight) / (ws.sum - ws.getD idx 0)) =
          1 - clamp01 weight := by
        rw [mul_comm]
        exact div_mul_cancel₀ _ (ne_of_gt hS)
      rw [key]
      ring
    · rw [if_neg hS]
      have hpt : ∀ y ∈ ws.eraseIdx idx,
          clamp01 ((1 - clamp01 weight) / ((ws.length - 1 : ℕ) : ℚ)) =
            (1 - clamp01 weight) / ((ws.length - 1 : ℕ) : ℚ) := by
        intro y hy
        have hn1 : (1 : ℚ) ≤ ((ws.length - 1 : ℕ) : ℚ) := by exact_mod_cast hOC1
        apply clamp01_of_mem
        · positivity
        · rw [div_le_one (by linarith)]
          linarith
      rw [List.map_congr_left (fun y hy => hpt y hy), sum_map_const, hOClen, hwc]
      have hn0 : ((ws.length - 1 : ℕ) : ℚ) ≠ 0 := by
        have : (1 : ℚ) ≤ ((ws.length - 1 : ℕ) : ℚ) := by exact_mod_cast hOC1
        linarith
      have key : ((ws.length - 1 : ℕ) : ℚ) * ((1 - clamp01 weight) / ((ws.length - 1 : ℕ) : ℚ)) =
          1 - clamp01 weight := by
        rw [mul_comm]
        exact div_mul_cancel₀ _ hn0
      rw [key]
      ring
  · rw [if_neg h1]
    have hr0 : 1 - clamp01 weight = 0 := by
      rcases not_and_or.mp h1 with hr | hc
      · linarith [not_lt.mp hr]
      · omega
    have hpt : ∀ y ∈ ws.eraseIdx idx, clamp01 (0 : ℚ) = (0 : ℚ) := by
      intro y hy
      exact clamp01_zero
    rw [List.map_congr_left (fun y hy => hpt y hy), sum_map_const, hwc]
    have : clamp01 weight = 1 := by linarith
    simp [this]

theorem setLayerWeight_eq_spec (ws : List ℚ) (idx : ℕ) (weight : ℚ) :
    setLayerWeight ws idx weight = setLayerWeightSpec ws idx weight := by
  unfold setLayerWeight setLayerWeightSpec
  by_cases hidx : idx < ws.length
  · rw [if_pos hidx, if_pos hidx]
    have hw1 : clamp01 weight ≤ 1 := clamp01_le_one _
    have hrem0 : 0 ≤ 1 - clamp01 weight := by linarith
    unfold redistributionFn redistributionFnSpec
    by_cases h1 : 0 < 1 - clamp01 weight ∧ 0 < ws.length - 1
    · rw [if_pos h1]
      by_cases hS : 0 < ws.sum - ws.getD idx 0
      · rw [if_pos hS, if_pos hS]
      · rw [if_neg hS, if_neg hS, if_pos h1.2]
    · rw [if_neg h1]
      apply applyWeights_congr
      intro y hy
      rcases not_and_or.mp h1 with hr | hc
      · have hr0 : 1 - clamp01 weight = 0 := by linarith [not_lt.mp hr]
        by_cases hS : 0 < ws.sum - ws.getD idx 0
        · rw [if_pos hS, hr0]
          simp
        · rw [if_neg hS]
          by_cases h3 : 0 < ws.length - 1
          · rw [if_pos h3, hr0]
            simp
          · have hlen := eraseIdx_length ws idx hidx
            have h0 : (ws.eraseIdx idx).length = 0 := by omega
            rw [List.length_eq_zero.mp h0] at hy
            simp at hy
      · have hlen := eraseIdx_length ws idx hidx
        have h0 : (ws.eraseIdx idx).length = 0 := by omega
        rw [List.length_eq_zero.mp h0] at hy
        simp at hy
  · rw [if_neg hidx, if_neg hidx]

theorem applyCalls_sum (calls : List (ℕ × ℚ)) :
    ∀ ws : List ℚ, 2 ≤ ws.length → (∀ x ∈ ws, 0 ≤ x ∧ x ≤ 1) → calls ≠ [] →
      (∀ c ∈ calls, c.1 < ws.length) →
      (applyCalls ws calls).sum = 1 ∧ ∀ x ∈ applyCalls ws calls, 0 ≤ x ∧ x ≤ 1 := by
  induction calls with
  | nil => intro ws _ _ hne _; exact absurd rfl hne
  | cons c cs ih =>
    intro ws h2 hb _ hix
    have hc : c.1 < ws.length := hix c (List.mem_cons_self _ _)
    have hlen : (setLayerWeight ws c.1 c.2).length = ws.length :=
      setLayerWeight_length _ _ _
    have hb' : ∀ x ∈ setLayerWeight ws c.1 c.2, 0 ≤ x ∧ x ≤ 1 :=
      setLayerWeight_mem _ _ _ hb
    have hsum : (setLayerWeight ws c.1 c.2).sum = 1 :=
      setLayerWeight_sum _ _ _ h2 hb hc
    cases cs with
    | nil => exact ⟨hsum, hb'⟩
    | cons d ds =>
      have step := ih (setLayerWeight ws c.1 c.2) (by omega) hb' (by simp)
        (fun e he => by rw [hlen]; exact hix e (List.mem_cons_of_mem _ he))
      simpa [applyCalls] using step

-- State-machine lemmas about `AnimationLayer.update`.

theorem update_looping (l : AnimationLayer) (d fr : ℚ) :
    (l.update d fr).layer.looping = l.looping := by
  unfold AnimationLayer.update
  split_ifs <;> rfl

theorem update_not_playing (l : AnimationLayer) (d fr : ℚ)
    (h : l.is_playing = false) :
    l.update d fr = ⟨l, false, false⟩ := by
  unfold AnimationLayer.update
  rw [if_pos h]

theorem update_fired_complete_stops (l : AnimationLayer) (d fr : ℚ)
    (hl : l.looping = false) (h : (l.update d fr).fired_complete = true) :
    (l.update d fr).layer.post_delay_count = 0 ∧
      (l.update d fr).layer.is_playing = false := by
  unfold AnimationLayer.update at *
  split_ifs at * <;> simp_all

theorem update_no_fire_blend_out (l : AnimationLayer) (d fr : ℚ)
    (hl : l.looping = false)
    (h : l.blending_out = true ∨ l.is_playing = false) :
    (l.update d fr).fired_blend_out = false ∧
      ((l.update d fr).layer.blending_out = true ∨
        (l.update d fr).layer.is_playing = false) := by
  unfold AnimationLayer.update
  split_ifs with h1 h2 h3 h4 h5 <;> simp_all

theorem runUpdates_not_playing (fr : ℚ) (l : AnimationLayer) (ds : List ℚ)
    (h : l.is_playing = false) :
    runUpdates fr l ds = (l, 0, 0) := by
  induction ds with
  | nil => rfl
  | cons d ds ih =>
    unfold runUpdates
    rw [update_not_playing l d fr h]
    simp [ih]

theorem runUpdates_complete_le_one (fr : ℚ) (l : AnimationLayer) (ds : List ℚ)
    (hl : l.looping = false) :
    (runUpdates fr l ds).2.1 ≤ 1 := by
  induction ds generalizing l with
  | nil => simp [runUpdates]
  | cons d ds ih =>
    simp only [runUpdates]
    by_cases hf : (l.update d fr).fired_complete = true
    · have hstop := update_fired_complete_stops l d fr hl hf
      rw [runUpdates_not_playing fr _ ds hstop.2]
      simp [hf]
    · have hlp : (l.update d fr).layer.looping = false := by
        rw [update_looping]; exact hl
      have := ih (l.update d fr).layer hlp
      simp only [Bool.not_eq_true] at hf
      simp [hf]
      omega

theorem update_fired_blend_out_sets (l : AnimationLayer) (d fr : ℚ)
    (h : (l.update d fr).fired_blend_out = true) :
    (l.update d fr).layer.blending_out = true := by
  unfold AnimationLayer.update at *
  split_ifs at * <;> simp_all

theorem runUpdates_blend_zero (fr : ℚ) (l : AnimationLayer) (ds : List ℚ)
    (hl : l.looping = false) (h : l.blending_out = true ∨ l.is_playing = false) :
    (runUpdates fr l ds).2.2 = 0 := by
  induction ds generalizing l with
  | nil => rfl
  | cons d ds ih =>
    simp only [runUpdates]
    have hstep := update_no_fire_blend_out l d fr hl h
    have hlp : (l.update d fr).layer.looping = false := by
      rw [update_looping]; exact hl
    simp [hstep.1, ih _ hlp hstep.2]

theorem runUpdates_blend_le_one (fr : ℚ) (l : AnimationLayer) (ds : List ℚ)
    (hl : l.looping = false) :
    (runUpdates fr l ds).2.2 ≤ 1 := by
  induction ds generalizing l with
  | nil => simp [runUpdates]
  | cons d ds ih =>
    simp only [runUpdates]
    have hlp : (l.update d fr).layer.looping = false := by
      rw [update_looping]; exact hl
    by_cases hf : (l.update d fr).fired_blend_out = true
    · have hset := update_fired_blend_out_sets l d fr hf
      rw [runUpdates_blend_zero fr _ ds hlp (Or.inl hset)]
      simp [hf]
    · simp only [Bool.not_eq_true] at hf
      have := ih (l.update d fr).layer hlp
      simp [hf]
      omega

theorem update_blend_edge (l : AnimationLayer) (d : ℚ)
    (hfr : l.frames = 120) (hbd : l.blend_out_frame_duration = 30)
    (hl : l.looping = false) (hp : l.is_playing = true) (hc : l.hasClip = true)
    (hinv : l.blending_out = true ↔ 90 ≤ l.current_frame) :
    (l.update d 60).fired_blend_out = true ↔
      (l.current_frame < 90 ∧ 90 ≤ l.current_frame + ⌊d * 60⌋ ∧
        l.current_frame + ⌊d * 60⌋ < 120) := by
  unfold AnimationLayer.update
  rw [hp, hc, hfr, hbd, hl]
  have hcast : ((120 : ℕ) : ℚ) - 30 ≤ ((l.current_frame + ⌊d * 60⌋ : ℤ) : ℚ) ↔
      (90 : ℤ) ≤ l.current_frame + ⌊d * 60⌋ := by
    constructor
    · intro h
      have : ((90 : ℤ) : ℚ) ≤ ((l.current_frame + ⌊d * 60⌋ : ℤ) : ℚ) := by push_cast at h ⊢; linarith
      exact_mod_cast this
    · intro h
      have : ((90 : ℤ) : ℚ) ≤ ((l.current_frame + ⌊d * 60⌋ : ℤ) : ℚ) := by exact_mod_cast h
      push_cast at this ⊢
      linarith
  by_cases hlt : l.current_frame + ⌊d * 60⌋ < ((120 : ℕ) : ℤ)
  · rw [if_neg (by simp), if_neg (by simp), if_pos hlt]
    by_cases hcond : ((120 : ℕ) : ℚ) - 30 ≤ ((l.current_frame + ⌊d * 60⌋ : ℤ) : ℚ) ∧
        (false : Bool) = false ∧ l.blending_out = false
    · rw [if_pos hcond]
      simp only [true_iff]
      have h90 := hcast.mp hcond.1
      have hnb : l.blending_out = false := hcond.2.2
      have hlt90 : l.current_frame < 90 := by
        by_contra hge
        push_neg at hge
        have := hinv.mpr hge
        rw [hnb] at this
        exact Bool.false_ne_true this
      refine ⟨hlt90, h90, ?_⟩
      exact_mod_cast hlt
    · rw [if_neg hcond]
      simp only [Bool.false_eq_true, false_iff]
      intro ⟨h1, h2, h3⟩
      apply hcond
      refine ⟨hcast.mpr h2, rfl, ?_⟩
      by_contra hb
      simp only [Bool.not_eq_false] at hb
      have := hinv.mp hb
      omega
  · rw [if_neg (by simp), if_neg (by simp), if_neg hlt]
    have h120 : ((120 : ℕ) : ℤ) ≤ l.current_frame + ⌊d * 60⌋ := by omega
    constructor
    · intro h
      split_ifs at h <;> simp_all
    · intro ⟨h1, h2, h3⟩
      omega

theorem cast_blend_bound (n : ℤ) :
    ((120 : ℕ) : ℚ) - 30 ≤ ((n : ℤ) : ℚ) ↔ (90 : ℤ) ≤ n := by
  constructor
  · intro h
    have : ((90 : ℤ) : ℚ) ≤ ((n : ℤ) : ℚ) := by push_cast at h ⊢; linarith
    exact_mod_cast this
  · intro h
    have : ((90 : ℤ) : ℚ) ≤ ((n : ℤ) : ℚ) := by exact_mod_cast h
    push_cast at this ⊢
    linarith

theorem update_blend_inv (l : AnimationLayer) (d : ℚ)
    (hfr : l.frames = 120) (hbd : l.blend_out_frame_duration = 30)
    (hl : l.looping = false) (hd : 0 ≤ d)
    (hinv : l.is_playing = true → (l.blending_out = true ↔ 90 ≤ l.current_frame)) :
    (l.update d 60).layer.is_playing = true →
      ((l.update d 60).layer.blending_out = true ↔
        90 ≤ (l.update d 60).layer.current_frame) := by
  have hstep : (0 : ℤ) ≤ ⌊d * 60⌋ := by
    apply Int.floor_nonneg.mpr
    positivity
  unfold AnimationLayer.update
  by_cases hp : l.is_playing = false
  · rw [if_pos hp]
    intro h
    rw [h] at hp
    exact absurd hp (by simp)
  · rw [if_neg hp]
    simp only [Bool.not_eq_false] at hp
    have hi := hinv hp
    by_cases hc : l.hasClip = false
    · rw [if_pos hc]
      intro _
      exact hi
    · rw [if_neg hc]
      by_cases hlt : l.current_frame + ⌊d * 60⌋ < (l.frames : ℤ)
      · rw [if_pos hlt]
        by_cases hcond : (l.frames : ℚ) - l.blend_out_frame_duration ≤
            ((l.current_frame + ⌊d * 60⌋ : ℤ) : ℚ) ∧ l.looping = false ∧
              l.blending_out = false
        · rw [if_pos hcond]
          intro _
          simp only [true_iff]
          have h1 := hcond.1
          rw [hfr, hbd] at h1
          exact (cast_blend_bound _).mp h1
        · rw [if_neg hcond]
          intro _
          simp only
          rcases hB : l.blending_out with _ | _
          · rw [hB] at hi
            simp only [Bool.false_eq_true, false_iff] at hi ⊢
            intro h90
            apply hcond
            refine ⟨?_, hl, hB⟩
            rw [hfr, hbd]
            exact (cast_blend_bound _).mpr h90
          · rw [hB] at hi
            simp only [true_iff] at hi ⊢
            omega
      · rw [if_neg hlt]
        by_cases hpd : l.post_delay_frames ≤ l.post_delay_count + 1
        · rw [if_pos hpd, hl]
          simp only [Bool.false_eq_true, if_false]
          intro h
          exact absurd h (by simp)
        · rw [if_neg hpd]
          intro _
          exact hi

theorem floor_tick : ⌊(1 / 60 : ℚ) * 60⌋ = (1 : ℤ) := by norm_num

theorem L4_tick_adv (k : ℤ) (h3 : k < 3) :
    (L4at k).update (1 / 60) 60 = ⟨L4at (k + 1), false, false⟩ := by
  unfold AnimationLayer.update L4at L4
  simp only [floor_tick]
  rw [if_neg (by simp), if_neg (by simp), if_pos (by push_cast; omega)]
  have hside : ¬(((4 : ℕ) : ℚ) - 0 ≤ ((k + 1 : ℤ) : ℚ) ∧ True ∧ True) := by
    intro ⟨h1, _, _⟩
    have hk : ((k + 1 : ℤ) : ℚ) ≤ ((3 : ℤ) : ℚ) := by
      exact_mod_cast (by omega : k + 1 ≤ (3 : ℤ))
    push_cast at h1 hk
    linarith
  rw [if_neg hside]

theorem L4_tick_done :
    (L4at 3).update (1 / 60) 60 = ⟨L4done, true, false⟩ := by
  unfold AnimationLayer.update L4at L4done L4
  simp only [floor_tick]
  norm_num

theorem runUpdates_append (fr : ℚ) (l : AnimationLayer) (ds1 ds2 : List ℚ) :
    runUpdates fr l (ds1 ++ ds2) =
      ((runUpdates fr (runUpdates fr l ds1).1 ds2).1,
        (runUpdates fr l ds1).2.1 + (runUpdates fr (runUpdates fr l ds1).1 ds2).2.1,
        (runUpdates fr l ds1).2.2 + (runUpdates fr (runUpdates fr l ds1).1 ds2).2.2) := by
  induction ds1 generalizing l with
  | nil => simp [runUpdates]
  | cons d ds ih =>
    simp only [List.cons_append, runUpdates, List.append_eq]
    rw [ih]
    simp [Nat.add_assoc]

theorem run_L4_four :
    runUpdates 60 L4 (List.replicate 4 (1 / 60)) = (L4done, 1, 0) := by
  have hrep : List.replicate 4 ((1 : ℚ) / 60) = [1 / 60, 1 / 60, 1 / 60, 1 / 60] := rfl
  have t0 : L4.update (1 / 60) 60 = ⟨L4at 1, false, false⟩ := by
    have := L4_tick_adv 0 (by norm_num)
    norm_num at this
    exact this
  have t1 : (L4at 1).update (1 / 60) 60 = ⟨L4at 2, false, false⟩ := by
    have := L4_tick_adv 1 (by norm_num)
    norm_num at this
    exact this
  have t2 : (L4at 2).update (1 / 60) 60 = ⟨L4at 3, false, false⟩ := by
    have := L4_tick_adv 2 (by norm_num)
    norm_num at this
    exact this
  rw [hrep]
  simp only [runUpdates, t0, t1, t2, L4_tick_done]
  rfl

theorem run_L4_ge_four (n : ℕ) (h : 4 ≤ n) :
    runUpdates 60 L4 (List.replicate n (1 / 60)) = (L4done, 1, 0) := by
  obtain ⟨k, rfl⟩ : ∃ k, n = 4 + k := ⟨n - 4, by omega⟩
  rw [List.replicate_add, runUpdates_append, run_L4_four]
  rw [runUpdates_not_playing 60 L4done _ rfl]
  rfl

-- Mixer-tick and completion facts.

theorem mixerTick_removes (layers : List AnimationLayer) (d fr : ℚ) :
    ∀ l ∈ mixerTick layers d fr, ¬(l.transient = true ∧ l.is_completed = true) := by
  intro l hl
  unfold mixerTick at hl
  rw [List.mem_filter] at hl
  intro ⟨h1, h2⟩
  have := hl.2
  simp [h1, h2] at this

theorem is_completed_iff (l : AnimationLayer) (hc : l.hasClip = true)
    (hlt : l.current_frame < (l.frames : ℤ)) :
    l.is_completed = true ↔
      (l.is_playing = false ∧ l.current_frame = (l.frames : ℤ) - 1 ∧
        l.post_delay_frames ≤ l.post_delay_count) := by
  unfold AnimationLayer.is_completed
  rw [if_neg (by simp [hc])]
  constructor
  · intro h
    simp only [Bool.and_eq_true, Bool.not_eq_true', decide_eq_true_eq] at h
    exact ⟨h.1.1, by omega, h.2⟩
  · intro ⟨hp, hf, hd⟩
    simp only [Bool.and_eq_true, Bool.not_eq_true', decide_eq_true_eq]
    exact ⟨⟨hp, by omega⟩, hd⟩

-- Crossfade facts.

theorem animate_defers (s : PlayerWeightState) (idx : ℕ) (w dur now t : ℚ)
    (hdur : dur ≤ 0) (ht : now ≤ t) :
    (animateLayerWeight s idx w dur now).weights = s.weights ∧
      (interpolationTick (animateLayerWeight s idx w dur now) t).weights =
        setLayerWeight s.weights idx w ∧
      (interpolationTick (animateLayerWeight s idx w dur now) t).interpolating = false := by
  refine ⟨rfl, ?_, ?_⟩ <;>
  · unfold interpolationTick animateLayerWeight
    rw [if_neg (by simp), if_pos (by simp; linarith)]

theorem floor_two_sec : ⌊(2 : ℚ) * 60⌋ = (120 : ℤ) := by norm_num

theorem run_L120_jump : runUpdates 60 L120 [2] = (L120stop, 1, 0) := by
  have hupd : L120.update 2 60 = ⟨L120stop, true, false⟩ := by
    unfold AnimationLayer.update L120stop L120
    simp only [floor_two_sec]
    norm_num
  simp only [runUpdates, hupd]
  rfl

theorem floor_four_frames : ⌊(4 / 60 : ℚ) * 60⌋ = (4 : ℤ) := by norm_num

theorem run_L4_jump : runUpdates 60 L4 [4 / 60] = (L4stop, 1, 0) := by
  have hupd : L4.update (4 / 60) 60 = ⟨L4stop, true, false⟩ := by
    unfold AnimationLayer.update L4stop L4
    simp only [floor_four_frames]
    norm_num
  simp only [runUpdates, hupd]
  rfl

theorem L4_tick0 : L4.update (1 / 60) 60 = ⟨L4at 1, false, false⟩ := by
  have := L4_tick_adv 0 (by norm_num)
  norm_num at this
  exact this

theorem mixerTick_L4 : mixerTick [L4] (1 / 60) 60 = [L4at 1] := by
  unfold mixerTick
  simp only [List.map_cons, List.map_nil, L4_tick0]
  simp [L4at, L4, AnimationLayer.is_completed]

/-- C1: `set_layer_weight` first clamps the target weight to [0,1]; then, when
the other layers' weights sum to more than 0, each other layer is scaled by
`(1 - w) / sum(others)`, else when at least one other layer exists `(1 - w)`
is distributed equally among the others; the target layer receives the clamped
weight and every written weight is clamped to [0,1] (`setLayerWeightSpec`
transcribes exactly this description and coincides with the embedded source
`setLayerWeight`).  In particular for two layers A(1.0), B(0.0),
`set_layer_weight(B, 0.5)` leaves A = 0.5 and B = 0.5. -/
theorem set_layer_weight_matches_claimed_redistribution :
    (∀ (ws : List ℚ) (idx : ℕ) (w : ℚ),
        setLayerWeight ws idx w = setLayerWeightSpec ws idx w) ∧
      setLayerWeight [1, 0] 1 (1 / 2) = [1 / 2, 1 / 2] :=
  ⟨setLayerWeight_eq_spec, by
    norm_num [setLayerWeight, applyWeights, redistributionFn, clamp01,
      min_def, max_def]⟩

/-- C2 counterexample: with a single layer of weight 1, the call
`set_layer_weight(layer, 0.5)` leaves the total weight at 1/2, outside
`[1 - e, 1 + e]` even for the generous tolerance e = 1/10, refuting the
claimed invariant for non-empty (singleton) collections. -/
theorem weight_sum_invariant_fails_for_singleton :
    (applyCalls [1] [(0, 1 / 2)]).sum = 1 / 2 ∧
      ¬(1 - 1 / 10 ≤ (applyCalls [1] [(0, 1 / 2)]).sum) := by
  have h : applyCalls [1] [(0, 1 / 2)] = [1 / 2] := by
    simp only [applyCalls]
    norm_num [setLayerWeight, applyWeights, redistributionFn, clamp01,
      min_def, max_def]
  rw [h]
  norm_num

/-- C2 amended: for a collection of at least two layers whose weights lie in
[0,1], after any non-empty sequence of `set_layer_weight` calls on layers of
the collection the weights sum to exactly 1 and each weight stays in [0,1];
with a single layer the sum instead equals the last clamped target. -/
theorem weight_sum_invariant_two_layers (calls : List (ℕ × ℚ)) (ws : List ℚ)
    (h2 : 2 ≤ ws.length) (hb : ∀ x ∈ ws, 0 ≤ x ∧ x ≤ 1) (hne : calls ≠ [])
    (hix : ∀ c ∈ calls, c.1 < ws.length) :
    (applyCalls ws calls).sum = 1 ∧ ∀ x ∈ applyCalls ws calls, 0 ≤ x ∧ x ≤ 1 :=
  applyCalls_sum calls ws h2 hb hne hix

theorem weight_sum_invariant_two_layers_witness :
    (applyCalls [1, 0] [(1, 1 / 2)]).sum = 1 :=
  (weight_sum_invariant_two_layers [(1, 1 / 2)] [1, 0] (by decide)
    (by intro x hx; fin_cases hx <;> norm_num) (by simp)
    (by intro c hc; fin_cases hc; decide)).1

/-- C3: following a play, a non-looping layer fires `on_complete` at most once
over any sequence of `update` ticks; on the tick where it fires the post-delay
counter is reset to 0 and the layer is stopped (`is_playing` false); and a
stopped layer is never advanced again, so no further tick fires a second
`on_complete`. -/
theorem on_complete_fires_once :
    (∀ (l : AnimationLayer) (loop : Option Bool) (f : ℤ) (fr : ℚ) (ds : List ℚ),
        (l.play loop f).looping = false →
        (runUpdates fr (l.play loop f) ds).2.1 ≤ 1) ∧
      (∀ (l : AnimationLayer) (d fr : ℚ), l.looping = false →
        (l.update d fr).fired_complete = true →
        (l.update d fr).layer.post_delay_count = 0 ∧
          (l.update d fr).layer.is_playing = false) ∧
      (∀ (l : AnimationLayer) (fr : ℚ) (ds : List ℚ), l.is_playing = false →
        runUpdates fr l ds = (l, 0, 0)) :=
  ⟨fun _ loop f fr ds h => runUpdates_complete_le_one fr _ ds h,
   fun l d fr hl hf => update_fired_complete_stops l d fr hl hf,
   fun l fr ds h => runUpdates_not_playing fr l ds h⟩

theorem on_complete_fires_once_witness :
    (runUpdates 60 (L4.play (some false) 0) [1 / 60]).2.1 ≤ 1 :=
  on_complete_fires_once.1 L4 (some false) 0 60 [1 / 60] rfl

/-- C4 counterexample: a single tick of 4/60 s (delta times summing to at
least 4/60 s) completes the 4-frame clip: `on_complete` fires once and the
layer stops, but the frame cursor stays at 0 and never reaches 3, refuting
the claim. -/
theorem round_trip_frame_not_reached :
    (4 / 60 : ℚ) ≤ ([4 / 60] : List ℚ).sum ∧
      (runUpdates 60 L4 [4 / 60]).2.1 = 1 ∧
      (runUpdates 60 L4 [4 / 60]).1.is_playing = false ∧
      (runUpdates 60 L4 [4 / 60]).1.current_frame ≠ 3 := by
  refine ⟨by norm_num, ?_, ?_, ?_⟩
  · rw [run_L4_jump]
  · rw [run_L4_jump]
    rfl
  · rw [run_L4_jump]
    decide

/-- C4 amended: driving the 4-frame non-looping zero-post-delay layer with
n ≥ 4 nominal ticks of exactly 1/60 s at framerate 60 reaches frame 3, fires
`on_complete` exactly once, and leaves the layer stopped. -/
theorem round_trip_nominal_ticks (n : ℕ) (h : 4 ≤ n) :
    (runUpdates 60 L4 (List.replicate n (1 / 60))).1.current_frame = 3 ∧
      (runUpdates 60 L4 (List.replicate n (1 / 60))).2.1 = 1 ∧
      (runUpdates 60 L4 (List.replicate n (1 / 60))).1.is_playing = false := by
  rw [run_L4_ge_four n h]
  exact ⟨rfl, rfl, rfl⟩

theorem round_trip_nominal_ticks_witness :
    (runUpdates 60 L4 (List.replicate 4 (1 / 60))).1.current_frame = 3 ∧
      (runUpdates 60 L4 (List.replicate 4 (1 / 60))).2.1 = 1 ∧
      (runUpdates 60 L4 (List.replicate 4 (1 / 60))).1.is_playing = false :=
  round_trip_nominal_ticks 4 (by decide)

/-- C5 counterexample: a single 2-second tick at 60 fps jumps the 120-frame
layer from frame 0 straight past the end of the clip; the play cycle completes
(`on_complete` fires once) yet `on_start_blend_out` fires zero times, refuting
"fires exactly once per play cycle, precisely when the cursor first reaches
90". -/
theorem blend_out_skipped_on_jump :
    (runUpdates 60 L120 [2]).2.1 = 1 ∧ (runUpdates 60 L120 [2]).2.2 = 0 := by
  rw [run_L120_jump]
  exact ⟨rfl, rfl⟩

/-- C5 amended: for any non-looping layer `on_start_blend_out` fires at most
once per play; for the 120-frame clip with blend threshold 30 at 60 fps a
tick fires it exactly when it moves the cursor from below 90 to a frame in
[90, 120) — a tick that jumps from below 90 past the end of the clip
completes without the callback ever firing; and the correspondence
`blending_out = (current_frame ≥ 90)` is preserved by every tick with
non-negative delta. -/
theorem blend_out_edge_amended :
    (∀ (fr : ℚ) (l : AnimationLayer) (ds : List ℚ), l.looping = false →
        (runUpdates fr l ds).2.2 ≤ 1) ∧
      (∀ (l : AnimationLayer) (d : ℚ), l.frames = 120 →
        l.blend_out_frame_duration = 30 → l.looping = false →
        l.is_playing = true → l.hasClip = true →
        (l.blending_out = true ↔ 90 ≤ l.current_frame) →
        ((l.update d 60).fired_blend_out = true ↔
          (l.current_frame < 90 ∧ 90 ≤ l.current_frame + ⌊d * 60⌋ ∧
            l.current_frame + ⌊d * 60⌋ < 120))) ∧
      (∀ (l : AnimationLayer) (d : ℚ), l.frames = 120 →
        l.blend_out_frame_duration = 30 → l.looping = false → 0 ≤ d →
        (l.is_playing = true → (l.blending_out = true ↔ 90 ≤ l.current_frame)) →
        ((l.update d 60).layer.is_playing = true →
          ((l.update d 60).layer.blending_out = true ↔
            90 ≤ (l.update d 60).layer.current_frame))) :=
  ⟨fun fr l ds h => runUpdates_blend_le_one fr l ds h,
   fun l d h1 h2 h3 h4 h5 h6 => update_blend_edge l d h1 h2 h3 h4 h5 h6,
   fun l d h1 h2 h3 h4 h5 => update_blend_inv l d h1 h2 h3 h4 h5⟩

theorem blend_out_edge_amended_witness :
    (runUpdates 60 L120 [1]).2.2 ≤ 1 :=
  blend_out_edge_amended.1 60 L120 [1] rfl

/-- C6 counterexample: with layers weighted [1, 0],
`animate_layer_weight(B, 0.5, duration = 0)` changes no weight at call time,
while an immediate `set_layer_weight(B, 0.5)` yields [0.5, 0.5]; the states
differ before any tick of the update loop runs, refuting the claimed
tick-free equivalence. -/
theorem animate_zero_duration_not_immediate :
    (animateLayerWeight S0 1 (1 / 2) 0 0).weights ≠
      setLayerWeight S0.weights 1 (1 / 2) := by
  have h1 : (animateLayerWeight S0 1 (1 / 2) 0 0).weights = [1, 0] := rfl
  have h2 : setLayerWeight S0.weights 1 (1 / 2) = [1 / 2, 1 / 2] := by
    show setLayerWeight [1, 0] 1 (1 / 2) = [1 / 2, 1 / 2]
    norm_num [setLayerWeight, applyWeights, redistributionFn, clamp01,
      min_def, max_def]
  rw [h1, h2]
  intro h
  simp only [List.cons.injEq] at h
  exact absurd h.1 (by norm_num)

/-- C6 amended: `animate_layer_weight` with duration ≤ 0 leaves every weight
unchanged at call time; the first subsequent tick of the update loop (run at
any time not before the call) applies `set_layer_weight(layer, weight)` and
clears the interpolation, so only after that tick do the weights agree with
those of an immediate `set_layer_weight` call. -/
theorem animate_zero_duration_applies_next_tick (s : PlayerWeightState)
    (idx : ℕ) (w dur now t : ℚ) (hdur : dur ≤ 0) (ht : now ≤ t) :
    (animateLayerWeight s idx w dur now).weights = s.weights ∧
      (interpolationTick (animateLayerWeight s idx w dur now) t).weights =
        setLayerWeight s.weights idx w ∧
      (interpolationTick (animateLayerWeight s idx w dur now) t).interpolating =
        false :=
  animate_defers s idx w dur now t hdur ht

theorem animate_zero_duration_applies_next_tick_witness :
    (interpolationTick (animateLayerWeight S0 1 (1 / 2) 0 0) 0).weights =
      setLayerWeight S0.weights 1 (1 / 2) :=
  (animate_zero_duration_applies_next_tick S0 1 (1 / 2) 0 0 0 le_rfl le_rfl).2.1

/-- C7: after any mixer tick no layer that is transient and completed remains
in the collection (each such layer is removed during the tick, after its own
advance); and, for a layer with a clip whose cursor respects the invariant
`current_frame < frame_count`, `is_completed` holds exactly when the layer is
stopped, its cursor equals `frame_count - 1`, and the post-delay counter has
reached `post_delay_frames`. -/
theorem transient_completed_removed :
    (∀ (layers : List AnimationLayer) (d fr : ℚ) (l : AnimationLayer),
        l ∈ mixerTick layers d fr →
        ¬(l.transient = true ∧ l.is_completed = true)) ∧
      (∀ l : AnimationLayer, l.hasClip = true →
        l.current_frame < (l.frames : ℤ) →
        (l.is_completed = true ↔
          (l.is_playing = false ∧ l.current_frame = (l.frames : ℤ) - 1 ∧
            l.post_delay_frames ≤ l.post_delay_count))) :=
  ⟨fun layers d fr l hl => mixerTick_removes layers d fr l hl,
   fun l h1 h2 => is_completed_iff l h1 h2⟩

theorem transient_completed_removed_witness :
    ¬((L4at 1).transient = true ∧ (L4at 1).is_completed = true) ∧
      (L4done.is_completed = true ↔
        (L4done.is_playing = false ∧
          L4done.current_frame = (L4done.frames : ℤ) - 1 ∧
          L4done.post_delay_frames ≤ L4done.post_delay_count)) :=
  ⟨transient_completed_removed.1 [L4] (1 / 60) 60 (L4at 1)
      (by rw [mixerTick_L4]; exact List.mem_singleton.mpr rfl),
   transient_completed_removed.2 L4done rfl (by decide)⟩

/-- C8 counterexample: `play` on a layer left with `blending_out = true` and a
non-zero post-delay counter resets neither field: after `play(None, 0)` the
blend-out flag is still set and the counter still 5, contradicting the claimed
resets. -/
theorem play_does_not_reset_blend_state :
    (Lblend.play none 0).blending_out = true ∧
      (Lblend.play none 0).post_delay_count = 5 :=
  ⟨rfl, rfl⟩

/-- C8 amended: `play(loop, from_frame)` sets `current_frame = from_frame` and
`is_playing = true`, and updates `looping` only when `loop` is provided; it
leaves `blending_out` and the post-delay counter unchanged (those are reset
only by the completion path of `update`, not by `play`). -/
theorem play_sets_cursor_and_playing_only (l : AnimationLayer)
    (loop : Option Bool) (f : ℤ) :
    (l.play loop f).current_frame = f ∧ (l.play loop f).is_playing = true ∧
      (l.play loop f).blending_out = l.blending_out ∧
      (l.play loop f).post_delay_count = l.post_delay_count ∧
      (l.play loop f).looping = loop.getD l.looping :=
  ⟨rfl, rfl, rfl, rfl, rfl⟩

/-- C9 counterexample: with the layer collection empty and the stopped flag
set, the tick-loop iteration sleeps and `continue`s before the stop check and
does not exit, so the loop keeps running full iterations after `stop()`. -/
theorem stop_not_observed_on_empty_stack :
    loopIterationExits ([] : List AnimationLayer) true = false := rfl

/-- C9 amended: a tick-loop iteration exits precisely when the stack is
non-empty and the stopped flag is set; an iteration over an empty stack never
reaches the stop check. -/
theorem loop_exit_iff_nonempty_and_stopped (stack : List AnimationLayer)
    (stopped : Bool) :
    loopIterationExits stack stopped = true ↔ (stack ≠ [] ∧ stopped = true) := by
  unfold loopIterationExits
  constructor
  · intro h
    by_cases he : stack.length = 0
    · rw [if_pos he] at h
      exact absurd h (by simp)
    · rw [if_neg he] at h
      exact ⟨fun hnil => he (by rw [hnil]; rfl), h⟩
  · intro ⟨h1, h2⟩
    have he : ¬stack.length = 0 := fun hlen => h1 (List.length_eq_zero.mp hlen)
    rw [if_neg he]
    exact h2

/-- C10: `set_layer_weight` called for a layer absent from the stack (the
`self.stack.index` lookup raises `ValueError`) returns without modifying any
weight: the whole weight vector is unchanged. -/
theorem set_layer_weight_missing_layer_noop (ws : List ℚ) (idx : ℕ) (w : ℚ)
    (h : ws.length ≤ idx) : setLayerWeight ws idx w = ws :=
  setLayerWeight_not_found ws idx w h

theorem set_layer_weight_missing_layer_noop_witness :
    setLayerWeight [1, 0] 5 (1 / 2) = [1, 0] :=
  set_layer_weight_missing_layer_noop [1, 0] 5 (1 / 2) (by decide)

